import Mathlib

/-!
Verification of `src/jit-pintool/clrjit_inscount.cpp` (dotnet/jitutils),
a PIN tool counting instructions executed inside the CLR JIT module.

The embedding below models, faithfully to the C++ source:
  * the IA32 split 64-bit counter (`DoCountLow`, `OverflowedLow`,
    `DoCountHigh`, `ReadInsCount`), with `ADDRINT` = 32-bit values as
    `Nat` reduced modulo `2^32` where C++ arithmetic wraps;
  * the lock-protected accumulation in `ThreadFini` (`TotalCount` is
    `UINT64`, so addition wraps modulo `2^64`);
  * the module-name heuristic `IsJitImage`, built from C++
    `string::rfind` (of a one-character separator) and `string::find`
    starting at a position;
  * the `InstrumentRanges` bookkeeping of `ImageLoad` / `ImageUnload`
    (`std::vector::push_back`, `std::find` + `erase`);
  * the range test performed by `Trace` before inserting counting calls;
  * the register-claiming check in `main` and the report in `Fini`.
-/

/-- Width constant: `ADDRINT` on `TARGET_IA32` is 32 bits. -/
def addrintMod : Nat := 2 ^ 32

/-- Width constant: `UINT64` arithmetic is modulo `2^64`. -/
def uint64Mod : Nat := 2 ^ 64

/-- `DoCountLow(countLow, numInsts) { return countLow + numInsts; }`
(32-bit `ADDRINT` addition, hence the reduction). -/
def DoCountLow (countLow numInsts : Nat) : Nat :=
  (countLow + numInsts) % addrintMod

/-- `OverflowedLow(countLow, numInsts) { return countLow < numInsts; }` -/
def OverflowedLow (countLow numInsts : Nat) : Bool :=
  decide (countLow < numInsts)

/-- `DoCountHigh(countHigh) { return countHigh + 1; }` (32-bit wrap). -/
def DoCountHigh (countHigh : Nat) : Nat :=
  (countHigh + 1) % addrintMod

/-- `ReadInsCount`: `*result = ((UINT64)countHigh << 32) | countLow;` -/
def ReadInsCount (countHigh countLow : Nat) : Nat :=
  (countHigh <<< 32) ||| countLow

/-- The per-basic-block update `Trace` inserts on IA32: run `DoCountLow`
writing back to the low register, then run `DoCountHigh` on the high
register exactly when `OverflowedLow`, reading the updated low register,
returns nonzero. Returns the (low, high) pair after the block. -/
def ia32BlockStep (low high numInsts : Nat) : Nat × Nat :=
  let low' := DoCountLow low numInsts
  let high' := if OverflowedLow low' numInsts then DoCountHigh high else high
  (low', high')

/-- `ThreadFini` body: `TotalCount += threadCount;` in `UINT64`. -/
def threadFiniStep (totalCount threadCount : Nat) : Nat :=
  (totalCount + threadCount) % uint64Mod

/-- Process-wide total after a sequence of `ThreadFini` events carrying
the given per-thread counts, starting from `TotalCount = 0`. -/
def runThreadFinis (counts : List Nat) : Nat :=
  counts.foldl threadFiniStep 0

/-- Disjoint-bits bridge: when the low half fits in 32 bits, the
`(high << 32) | low` combination of `ReadInsCount` is plain arithmetic. -/
theorem readInsCount_eq_mul_add (high low : Nat) (hlow : low < addrintMod) :
    ReadInsCount high low = high * 2 ^ 32 + low := by
  unfold ReadInsCount
  apply Nat.eq_of_testBit_eq
  intro j
  rw [Nat.testBit_lor, Nat.shiftLeft_eq, Nat.mul_comm high,
    Nat.testBit_mul_pow_two_add high hlow j, Nat.testBit_mul_pow_two]
  by_cases hj : j < 32
  · simp [hj, Nat.not_le_of_lt hj]
  · have hbit : low.testBit j = false := by
      apply Nat.testBit_lt_two_pow
      calc low < 2 ^ 32 := hlow
        _ ≤ 2 ^ j := Nat.pow_le_pow_right (by norm_num) (Nat.le_of_not_lt hj)
    simp [hj, Nat.le_of_not_lt hj, hbit]

/-- C1: for all 32-bit halves and per-block counts, the inserted split
update (`DoCountLow`, then `DoCountHigh` when `OverflowedLow` fires on
the updated low half) reconstructs, through `ReadInsCount`, exactly the
64-bit sum `((high << 32) | low) + numInsts` reduced modulo `2^64`. -/
theorem ia32BlockStep_eq_uint64_add (low high numInsts : Nat)
    (hlow : low < addrintMod) (hhigh : high < addrintMod)
    (hn : numInsts < addrintMod) :
    ReadInsCount (ia32BlockStep low high numInsts).2
        (ia32BlockStep low high numInsts).1 =
      (ReadInsCount high low + numInsts) % uint64Mod := by
  have hlow' : DoCountLow low numInsts < addrintMod :=
    Nat.mod_lt _ (by norm_num [addrintMod])
  have hhigh' :
      (if OverflowedLow (DoCountLow low numInsts) numInsts then
          DoCountHigh high else high) < addrintMod := by
    split
    · exact Nat.mod_lt _ (by norm_num [addrintMod])
    · exact hhigh
  rw [show (ia32BlockStep low high numInsts).1 = DoCountLow low numInsts from rfl,
    show (ia32BlockStep low high numInsts).2 =
      (if OverflowedLow (DoCountLow low numInsts) numInsts then
        DoCountHigh high else high) from rfl,
    readInsCount_eq_mul_add _ _ hlow',
    readInsCount_eq_mul_add _ _ hlow]
  unfold addrintMod at hlow hhigh hn
  unfold DoCountLow DoCountHigh OverflowedLow addrintMod uint64Mod
  simp only [decide_eq_true_eq]
  by_cases hc : (low + numInsts) % 2 ^ 32 < numInsts
  · rw [if_pos hc]
    omega
  · rw [if_neg hc]
    omega

/-- Witness for C1 at low = 2^32 - 1, high = 7, numInsts = 3: the low
half wraps, the high half increments, and the combination equals the
64-bit sum. -/
theorem ia32BlockStep_eq_uint64_add_witness :
    ReadInsCount (ia32BlockStep (2 ^ 32 - 1) 7 3).2
        (ia32BlockStep (2 ^ 32 - 1) 7 3).1 =
      (ReadInsCount 7 (2 ^ 32 - 1) + 3) % uint64Mod :=
  ia32BlockStep_eq_uint64_add (2 ^ 32 - 1) 7 3 (by norm_num [addrintMod])
    (by norm_num [addrintMod]) (by norm_num [addrintMod])

theorem foldl_threadFiniStep (counts : List Nat) :
    ∀ acc : Nat, acc < uint64Mod → counts.foldl threadFiniStep acc =
      (acc + counts.sum) % uint64Mod := by
  induction counts with
  | nil =>
    intro acc hacc
    rw [List.foldl_nil, List.sum_nil, Nat.add_zero, Nat.mod_eq_of_lt hacc]
  | cons c cs ih =>
    intro acc hacc
    rw [List.foldl_cons, List.sum_cons,
      show threadFiniStep acc c = (acc + c) % uint64Mod from rfl,
      ih _ (Nat.mod_lt _ (by norm_num [uint64Mod])), Nat.mod_add_mod,
      Nat.add_assoc]

/-- C2: starting from `TotalCount = 0`, after `ThreadFini` events
carrying counts `c1, ..., ck` the total equals `c1 + ... + ck` in 64-bit
unsigned arithmetic, for any number of threads. -/
theorem runThreadFinis_eq_sum (counts : List Nat) :
    runThreadFinis counts = counts.sum % uint64Mod := by
  rw [runThreadFinis, foldl_threadFiniStep counts 0 (by norm_num [uint64Mod]),
    Nat.zero_add]

/-- C7 counterexample: `TotalCount` is a wrapping `UINT64`, so a
`ThreadFini` step from total `2^64 - 1` with per-thread count 1 yields
0, strictly below the prior total: the step is not monotone. -/
theorem threadFiniStep_not_monotone :
    ¬ (uint64Mod - 1 ≤ threadFiniStep (uint64Mod - 1) 1) := by
  unfold threadFiniStep uint64Mod
  norm_num

/-- C7 (amended): a `ThreadFini` step never decreases `TotalCount`
provided the 64-bit addition does not wrap, i.e. the prior total plus
the exiting thread's count is below `2^64`. -/
theorem threadFiniStep_monotone (totalCount threadCount : Nat)
    (hnowrap : totalCount + threadCount < uint64Mod) :
    totalCount ≤ threadFiniStep totalCount threadCount := by
  unfold threadFiniStep uint64Mod at *
  omega

/-- Witness for the amended C7 at total 5, count 7. -/
theorem threadFiniStep_monotone_witness :
    5 + 7 < uint64Mod ∧ 5 ≤ threadFiniStep 5 7 :=
  ⟨by norm_num [uint64Mod], threadFiniStep_monotone 5 7 (by norm_num [uint64Mod])⟩

/-- C++ `string::rfind` of a one-character separator: index of the last
occurrence of `c` in `s`, or `none` (npos). (`IsJitImage` calls
`name.rfind(pathSep)` with the one-character separator string.) -/
def strRfind (s : List Char) (c : Char) : Option Nat :=
  match s with
  | [] => none
  | x :: xs =>
    match strRfind xs c with
    | some i => some (i + 1)
    | none => if x = c then some 0 else none

/-- `fileNameStart` as computed by `IsJitImage`: 0 when `rfind` returned
npos, otherwise one past the last separator. -/
def fileNameStart (pathSep : Char) (name : List Char) : Nat :=
  match strRfind name pathSep with
  | none => 0
  | some i => i + 1

/-- Whether `pat` matches the front of `rest`, character by character. -/
def headMatch : List Char → List Char → Bool
  | [], _ => true
  | _ :: _, [] => false
  | p :: ps, x :: xs => p == x && headMatch ps xs

/-- Whether `pat` occurs in `s` starting exactly at index `i`. -/
def substrAt (pat s : List Char) (i : Nat) : Bool :=
  headMatch pat (s.drop i)

/-- Fuel-driven scan behind `strFindFrom`; the fuel given by
`strFindFrom` always suffices to reach the end of the string. -/
def strFindFromAux (s pat : List Char) : Nat → Nat → Option Nat
  | 0, _ => none
  | fuel + 1, pos =>
    if substrAt pat s pos then some pos
    else if pos < s.length then strFindFromAux s pat fuel (pos + 1)
    else none

/-- C++ `string::find(pat, pos)`: the smallest index `i ≥ pos` at which
`pat` occurs in `s`, or `none` (npos). -/
def strFindFrom (s pat : List Char) (pos : Nat) : Option Nat :=
  strFindFromAux s pat (s.length + 1 - pos) pos

/-- The literal `"clrjit"` searched for by `IsJitImage`. -/
def clrjitChars : List Char := ['c', 'l', 'r', 'j', 'i', 't']

/-- `IsJitImage`: `name.find("clrjit", fileNameStart) != npos`, with
`fileNameStart` just past the last path separator (0 when none). -/
def isJitImage (pathSep : Char) (name : List Char) : Bool :=
  (strFindFrom name clrjitChars (fileNameStart pathSep name)).isSome

theorem substrAt_lt_length {pat s : List Char} {i : Nat} (hpat : pat ≠ [])
    (h : substrAt pat s i = true) : i < s.length := by
  by_contra hge
  have hdrop : s.drop i = [] := List.drop_eq_nil_of_le (Nat.le_of_not_lt hge)
  cases pat with
  | nil => exact hpat rfl
  | cons p ps => simp [substrAt, hdrop, headMatch] at h

theorem strFindFromAux_isSome {s pat : List Char} (hpat : pat ≠ []) :
    ∀ fuel pos, s.length + 1 - pos ≤ fuel →
      ((strFindFromAux s pat fuel pos).isSome = true ↔
        ∃ i, pos ≤ i ∧ substrAt pat s i = true) := by
  intro fuel
  induction fuel with
  | zero =>
    intro pos hfuel
    constructor
    · intro h
      simp [strFindFromAux] at h
    · rintro ⟨i, hpos, hsub⟩
      have := substrAt_lt_length hpat hsub
      omega
  | succ f ih =>
    intro pos hfuel
    simp only [strFindFromAux]
    by_cases hs : substrAt pat s pos = true
    · rw [if_pos hs]
      exact iff_of_true rfl ⟨pos, Nat.le_refl _, hs⟩
    · rw [if_neg hs]
      by_cases hlen : pos < s.length
      · rw [if_pos hlen, ih (pos + 1) (by omega)]
        constructor
        · rintro ⟨i, hi, hsub⟩
          exact ⟨i, by omega, hsub⟩
        · rintro ⟨i, hi, hsub⟩
          refine ⟨i, ?_, hsub⟩
          rcases Nat.eq_or_lt_of_le hi with rfl | h'
          · exact absurd hsub hs
          · omega
      · rw [if_neg hlen]
        constructor
        · intro h
          simp at h
        · rintro ⟨i, hi, hsub⟩
          have := substrAt_lt_length hpat hsub
          omega

theorem strFindFrom_isSome {s pat : List Char} (hpat : pat ≠ []) (pos : Nat) :
    (strFindFrom s pat pos).isSome = true ↔
      ∃ i, pos ≤ i ∧ substrAt pat s i = true :=
  strFindFromAux_isSome hpat _ pos (Nat.le_refl _)

theorem strRfind_none_sound {s : List Char} {c : Char}
    (h : strRfind s c = none) : ∀ k : Nat, s[k]? ≠ some c := by
  induction s with
  | nil =>
    intro k
    simp
  | cons x xs ih =>
    rw [strRfind] at h
    cases hx : strRfind xs c with
    | some i =>
      rw [hx] at h
      exact absurd h (by simp)
    | none =>
      rw [hx] at h
      have hxc : x ≠ c := by
        intro heq
        rw [if_pos heq] at h
        exact absurd h (by simp)
      intro k
      cases k with
      | zero =>
        simp [hxc]
      | succ k' =>
        simpa using ih hx k'

theorem strRfind_some_sound {s : List Char} {c : Char} {j : Nat}
    (h : strRfind s c = some j) :
    s[j]? = some c ∧ ∀ k, j < k → s[k]? ≠ some c := by
  induction s generalizing j with
  | nil => exact absurd h (by simp [strRfind])
  | cons x xs ih =>
    rw [strRfind] at h
    cases hx : strRfind xs c with
    | some i =>
      rw [hx] at h
      have hj : j = i + 1 := by
        have := Option.some.inj h
        omega
      subst hj
      obtain ⟨hmem, hlast⟩ := ih hx
      refine ⟨by simpa using hmem, ?_⟩
      intro k hk
      cases k with
      | zero => omega
      | succ k' =>
        simpa using hlast k' (by omega)
    | none =>
      rw [hx] at h
      by_cases hxc : x = c
      · rw [if_pos hxc] at h
        have hj : j = 0 := (Option.some.inj h).symm
        subst hj
        refine ⟨by simp [hxc], ?_⟩
        intro k hk
        cases k with
        | zero => omega
        | succ k' =>
          simpa using strRfind_none_sound hx k'
      · rw [if_neg hxc] at h
        exact absurd h (by simp)

theorem strRfind_some_complete {s : List Char} {c : Char} {j : Nat}
    (hmem : s[j]? = some c) (hlast : ∀ k, j < k → s[k]? ≠ some c) :
    strRfind s c = some j := by
  cases hr : strRfind s c with
  | none => exact absurd hmem (strRfind_none_sound hr j)
  | some j' =>
    obtain ⟨hmem', hlast'⟩ := strRfind_some_sound hr
    rcases Nat.lt_trichotomy j j' with hlt | heq | hgt
    · exact absurd hmem' (hlast j' hlt)
    · rw [heq]
    · exact absurd hmem (hlast' j hgt)

/-- C3: `IsJitImage` returns true iff `"clrjit"` occurs in the name at
or after `fileNameStart`, the position just past the last path-separator
occurrence (0 when no separator is present); the last two conjuncts
verify that `strRfind` indeed designates the last separator occurrence
(or reports that none exists). -/
theorem isJitImage_iff_basename_match (pathSep : Char) (name : List Char) :
    (isJitImage pathSep name = true ↔
      ∃ i, fileNameStart pathSep name ≤ i ∧ substrAt clrjitChars name i = true)
    ∧ (∀ j, strRfind name pathSep = some j ↔
        (name[j]? = some pathSep ∧ ∀ k, j < k → name[k]? ≠ some pathSep))
    ∧ (strRfind name pathSep = none ↔ ∀ k : Nat, name[k]? ≠ some pathSep) := by
  refine ⟨?_, ?_, ?_⟩
  · rw [isJitImage]
    exact strFindFrom_isSome (by simp [clrjitChars]) _
  · intro j
    constructor
    · exact strRfind_some_sound
    · intro hspec
      exact strRfind_some_complete hspec.1 hspec.2
  · constructor
    · exact strRfind_none_sound
    · intro hall
      cases hr : strRfind name pathSep with
      | none => rfl
      | some j => exact absurd (strRfind_some_sound hr).1 (hall j)

/-- Witness for C3: the name `"/clrjit"` is recognised; the match sits
at index 1, just past the separator at index 0. -/
theorem isJitImage_iff_basename_match_witness :
    isJitImage '/' ('/' :: clrjitChars) = true :=
  ((isJitImage_iff_basename_match '/' ('/' :: clrjitChars)).1).mpr
    ⟨1, by decide, by decide⟩

/-- C9: the heuristic is case-sensitive: whenever the exact lowercase
substring `"clrjit"` occurs nowhere in the name, `IsJitImage` returns
false — in particular for basenames spelling it in a different case. -/
theorem isJitImage_case_sensitive (pathSep : Char) (name : List Char)
    (h : ∀ i, i < name.length → substrAt clrjitChars name i = false) :
    isJitImage pathSep name = false := by
  cases hb : isJitImage pathSep name
  · rfl
  · rw [isJitImage] at hb
    obtain ⟨i, hge, hsub⟩ :=
      (strFindFrom_isSome (by simp [clrjitChars]) _).mp hb
    have hlt := substrAt_lt_length (by simp [clrjitChars]) hsub
    have hfalse := h i hlt
    rw [hsub] at hfalse
    exact absurd hfalse (by simp)

/-- Witness for C9: `"CLRJIT"` (uppercase) is not recognised. -/
theorem isJitImage_case_sensitive_witness :
    isJitImage '/' ['C', 'L', 'R', 'J', 'I', 'T'] = false :=
  isJitImage_case_sensitive '/' ['C', 'L', 'R', 'J', 'I', 'T'] (by decide)

/-- `ImageLoad` effect on `InstrumentRanges`: when the image passes the
JIT heuristic, `push_back` the pair (low address, high address). (The
`Instrumentor_GetInsCount` probe the callback also installs does not
touch the range list.) -/
def imageLoadRanges (pathSep : Char) (name : List Char)
    (lowAddr highAddr : Nat) (ranges : List (Nat × Nat)) :
    List (Nat × Nat) :=
  if isJitImage pathSep name then ranges ++ [(lowAddr, highAddr)]
  else ranges

/-- `ImageUnload` effect on `InstrumentRanges`: when the image passes
the JIT heuristic, `std::find` the pair and `erase` it when present —
i.e. remove the first occurrence, a no-op when absent. -/
def imageUnloadRanges (pathSep : Char) (name : List Char)
    (lowAddr highAddr : Nat) (ranges : List (Nat × Nat)) :
    List (Nat × Nat) :=
  if isJitImage pathSep name then ranges.erase (lowAddr, highAddr)
  else ranges

/-- The range scan at the head of `Trace`: some registered pair
`(p.first, p.second)` satisfies `addr >= p.first && addr < p.second`. -/
def traceShouldInstrument (addr : Nat) (ranges : List (Nat × Nat)) : Bool :=
  ranges.any fun p => decide (p.1 ≤ addr) && decide (addr < p.2)

/-- `Trace` outcome, as the per-basic-block counting calls inserted (one
entry per block, carrying `BBL_NumIns`): all blocks when the start
address hit a registered range, nothing when `Trace` returned early. -/
def traceInstrument (ranges : List (Nat × Nat)) (addr : Nat)
    (bblCounts : List Nat) : List Nat :=
  if traceShouldInstrument addr ranges then bblCounts else []

/-- C4: `Trace` inserts counting instrumentation into the trace's basic
blocks iff some registered range `(lo, hi)` has `lo ≤ addr < hi` for the
trace's start address, and inserts nothing otherwise. -/
theorem trace_instruments_iff_in_range (addr : Nat)
    (ranges : List (Nat × Nat)) (bblCounts : List Nat) :
    (traceShouldInstrument addr ranges = true ↔
      ∃ p ∈ ranges, p.1 ≤ addr ∧ addr < p.2)
    ∧ (traceShouldInstrument addr ranges = false →
        traceInstrument ranges addr bblCounts = [])
    ∧ (traceShouldInstrument addr ranges = true →
        traceInstrument ranges addr bblCounts = bblCounts) := by
  refine ⟨?_, ?_, ?_⟩
  · simp [traceShouldInstrument, List.any_eq_true]
  · intro h
    rw [traceInstrument, h]
    rfl
  · intro h
    rw [traceInstrument, h]
    rfl

/-- Witness for C4: address 15 falls in the registered range (10, 20),
so both blocks of the trace get counting calls. -/
theorem trace_instruments_iff_in_range_witness :
    traceInstrument [(10, 20)] 15 [3, 4] = [3, 4] :=
  (trace_instruments_iff_in_range 15 [(10, 20)] [3, 4]).2.2 (by decide)

theorem erase_append_singleton_perm {α : Type} [BEq α] [LawfulBEq α]
    (l : List α) (a : α) : List.Perm ((l ++ [a]).erase a) l := by
  induction l with
  | nil =>
    rw [List.nil_append, List.erase_cons_head]
  | cons x xs ih =>
    rw [List.cons_append, List.erase_cons]
    by_cases hx : (x == a) = true
    · rw [if_pos hx]
      have hxa : x = a := eq_of_beq hx
      rw [hxa]
      exact List.perm_append_singleton a xs
    · rw [if_neg hx]
      exact List.Perm.cons x ih

/-- C5: for a module passing the JIT heuristic, `ImageLoad` appends
exactly the pair (low, high) to the range list, and a subsequent
`ImageUnload` of the same module restores the original multiset of
registered ranges. -/
theorem load_then_unload_preserves_ranges (pathSep : Char)
    (name : List Char) (lowAddr highAddr : Nat)
    (ranges : List (Nat × Nat)) (hjit : isJitImage pathSep name = true) :
    imageLoadRanges pathSep name lowAddr highAddr ranges =
      ranges ++ [(lowAddr, highAddr)]
    ∧ (imageUnloadRanges pathSep name lowAddr highAddr
          (imageLoadRanges pathSep name lowAddr highAddr ranges) :
        Multiset (Nat × Nat)) = (ranges : Multiset (Nat × Nat)) := by
  constructor
  · rw [imageLoadRanges, if_pos hjit]
  · rw [imageLoadRanges, if_pos hjit, imageUnloadRanges, if_pos hjit]
    exact Multiset.coe_eq_coe.mpr
      (erase_append_singleton_perm ranges (lowAddr, highAddr))

/-- Witness for C5: loading `"clrjit"` at (5, 9) onto list [(1, 2)] and
unloading it again restores the multiset [(1, 2)]. -/
theorem load_then_unload_preserves_ranges_witness :
    imageLoadRanges '/' clrjitChars 5 9 [(1, 2)] = [(1, 2)] ++ [(5, 9)]
    ∧ (imageUnloadRanges '/' clrjitChars 5 9
          (imageLoadRanges '/' clrjitChars 5 9 [(1, 2)]) :
        Multiset (Nat × Nat)) = ([(1, 2)] : Multiset (Nat × Nat)) :=
  load_then_unload_preserves_ranges '/' clrjitChars 5 9 [(1, 2)] (by decide)

/-- C10: `ImageUnload` leaves the range list unchanged (silently) when
the exact (low, high) pair is not registered — in particular for non-JIT
images, which never touch the list — and, for a JIT image whose pair is
registered (possibly several times), removes exactly the first
occurrence, leaving any duplicates in place. -/
theorem imageUnload_erase_semantics (pathSep : Char) (name : List Char)
    (lowAddr highAddr : Nat) (ranges front back : List (Nat × Nat)) :
    ((lowAddr, highAddr) ∉ ranges →
      imageUnloadRanges pathSep name lowAddr highAddr ranges = ranges)
    ∧ (isJitImage pathSep name = true → (lowAddr, highAddr) ∉ front →
      imageUnloadRanges pathSep name lowAddr highAddr
          (front ++ (lowAddr, highAddr) :: back) = front ++ back) := by
  constructor
  · intro hmem
    rw [imageUnloadRanges]
    split
    · exact List.erase_of_not_mem hmem
    · rfl
  · intro hjit hfront
    rw [imageUnloadRanges, if_pos hjit, List.erase_append_right _ hfront,
      List.erase_cons_head]

/-- Witness for C10: unloading `"clrjit"` at (3, 4) is a no-op on
[(1, 2)], and on [(1, 2), (3, 4), (3, 4)] removes only the first
occurrence of (3, 4). -/
theorem imageUnload_erase_semantics_witness :
    imageUnloadRanges '/' clrjitChars 3 4 [(1, 2)] = [(1, 2)]
    ∧ imageUnloadRanges '/' clrjitChars 3 4
        ([(1, 2)] ++ (3, 4) :: [(3, 4)]) = [(1, 2)] ++ [(3, 4)] :=
  ⟨(imageUnload_erase_semantics '/' clrjitChars 3 4 [(1, 2)] [] []).1
      (by decide),
    (imageUnload_erase_semantics '/' clrjitChars 3 4 [] [(1, 2)]
        [(3, 4)]).2 (by decide) (by decide)⟩

/-- `main`'s register claiming: on IA32 both claimed registers must be
valid, otherwise the single claimed register must be. -/
def claimedInsCountStorage (ia32 lowRegValid highRegValid : Bool) : Bool :=
  if ia32 then lowRegValid && highRegValid else lowRegValid

/-- `main`'s startup check: `some (message, 1)` models the
`cerr << "Could not allocate storage..."; return 1;` path, `none` the
continuation into callback registration and `PIN_StartProgram`. -/
def mainStartup (ia32 lowRegValid highRegValid : Bool) :
    Option (String × Nat) :=
  if !(claimedInsCountStorage ia32 lowRegValid highRegValid) then
    some ("Could not allocate storage for instruction count.", 1)
  else none

/-- C6: when the per-thread counting storage cannot be claimed (on IA32
either register invalid, otherwise the single register invalid), `main`
writes the error message and exits with code 1; when claiming succeeds,
that error path is not taken. -/
theorem mainStartup_storage_failure (ia32 v1 v2 : Bool) :
    (mainStartup ia32 v1 v2 =
        some ("Could not allocate storage for instruction count.", 1) ↔
      (if ia32 then v1 = false ∨ v2 = false else v1 = false))
    ∧ (mainStartup ia32 v1 v2 = none ↔
        claimedInsCountStorage ia32 v1 v2 = true) := by
  cases ia32 <;> cases v1 <;> cases v2 <;>
    simp [mainStartup, claimedInsCountStorage]

/-- Witness for C6: on IA32 with an invalid high register, startup
fails with the message and exit code 1. -/
theorem mainStartup_storage_failure_witness :
    mainStartup true true false =
      some ("Could not allocate storage for instruction count.", 1) :=
  ((mainStartup_storage_failure true true false).1).mpr (by simp)

/-- `Fini`: the report line written to `cerr`, or nothing under
`-quiet`. -/
def finiOutput (quiet : Bool) (totalCount : Nat) : Option String :=
  if !quiet then some ("Instructions executed: " ++ toString totalCount)
  else none

/-- C8: with the quiet knob set `Fini` emits no report line; otherwise
it writes exactly "Instructions executed: <count>" with the accumulated
total. -/
theorem fini_report (totalCount : Nat) :
    finiOutput true totalCount = none
    ∧ finiOutput false totalCount =
        some ("Instructions executed: " ++ toString totalCount) :=
  ⟨rfl, rfl⟩
